import Mathlib

/-!
Verification development for the `tsapp` 2D presentation engine
(`src/tsapp.py` of the RandomChooser repository).

Each section embeds one component of the source as executable Lean
definitions and proves (or refutes) the corresponding specification
claims.  Pixel buffers, fonts and the audio backend are external
collaborators of the engine; they enter the embedding as opaque data
(cell sizes, an abstract text-measure function, clip identifiers),
while every piece of engine logic - control flow, arithmetic,
list manipulation - is transcribed from the Python source.
-/

set_option autoImplicit false

/-! ### Frame loop (`GraphicsWindow.finish_frame`, tsapp.py lines 322-359)

`finish_frame` iterates over the draw list once, in list order
(index 0 = back layer).  For each item it calls `_draw()` unless the
item's destroyed flag is set, then calls `_update(dt)`; `_draw` itself
renders only when the item is visible.  After the loop the screen is
flipped, the items collected as destroyed are removed from the draw
list, and only then are the frame's input events captured.

The flags of an item do not change during the loop: `_update` only
integrates velocity into the position (`RectangularObject._update`),
and `destroy()` is called by application code between frame steps.
We therefore record the observable actions of one `finish_frame` call
as a trace of events over a list of (destroyed, visible) flag pairs. -/

/-- Flags of one entry of the draw list that are relevant to the frame
step: the lazy-destroy flag and the visibility flag. -/
structure DItem where
  destroyed : Bool
  visible : Bool
deriving DecidableEq, Repr

/-- Observable actions of one `finish_frame` call, in order: rendering
an item (`draw i`), updating an item with the frame's elapsed time
(`upd i`), presenting the frame (`flipScreen`), removing a collected
destroyed item from the draw list (`reap i`), and capturing the
frame's input events (`capture`). -/
inductive FEvent where
  | draw : ℕ → FEvent
  | upd : ℕ → FEvent
  | flipScreen : FEvent
  | reap : ℕ → FEvent
  | capture : FEvent
deriving DecidableEq, Repr

/-- Events emitted for the draw-list entry at absolute index `i`:
tsapp.py lines 339-342.  The item is rendered when its destroyed flag
is clear (line 340) and it is visible (`Sprite._draw` line 866 /
`TextLabel._draw` line 1067); it is always updated (line 342). -/
def itemEvents (i : ℕ) (d : DItem) : List FEvent :=
  (if d.destroyed = false ∧ d.visible = true then [FEvent.draw i] else []) ++ [FEvent.upd i]

/-- Draw+update pass over the tail of the draw list whose first entry
has absolute index `k` (the `for drawable_item in self._draw_list`
loop, tsapp.py lines 339-345). -/
def drawPhaseFrom (k : ℕ) : List DItem → List FEvent
  | [] => []
  | d :: rest => itemEvents k d ++ drawPhaseFrom (k + 1) rest

/-- Removal events for the destroyed items collected during the pass
(tsapp.py lines 344-345 and 349-350), in collection order. -/
def reapPhaseFrom (k : ℕ) : List DItem → List FEvent
  | [] => []
  | d :: rest => (if d.destroyed = true then [FEvent.reap k] else []) ++ reapPhaseFrom (k + 1) rest

/-- Full event trace of one `finish_frame` call: the interleaved
draw/update loop, then `pygame.display.flip()`, then removal of the
collected destroyed items, then event capture (tsapp.py lines 337-354). -/
def frameTrace (l : List DItem) : List FEvent :=
  drawPhaseFrom 0 l ++ [FEvent.flipScreen] ++ reapPhaseFrom 0 l ++ [FEvent.capture]

/-- Draw list left for the next frame: the destroyed entries have been
removed (tsapp.py lines 349-350), the order of the rest is preserved. -/
def frameReap (l : List DItem) : List DItem :=
  l.filter (fun d => !d.destroyed)

theorem itemEvents_upd_sublist (i : ℕ) (d : DItem) :
    List.Sublist [FEvent.upd i] (itemEvents i d) := by
  unfold itemEvents
  exact List.sublist_append_right _ _

theorem drawPhaseFrom_upd_mem (l : List DItem) (k i : ℕ) (hi : i < l.length) :
    FEvent.upd (k + i) ∈ drawPhaseFrom k l := by
  induction l generalizing k i with
  | nil => simp at hi
  | cons d rest ih =>
    unfold drawPhaseFrom
    rw [List.mem_append]
    cases i with
    | zero =>
      left
      unfold itemEvents
      simp
    | succ m =>
      right
      have := ih (k + 1) m (by simpa using hi)
      simpa [Nat.add_assoc, Nat.add_comm 1 m] using this

theorem drawPhaseFrom_own_order (l : List DItem) (k i : ℕ) (hi : i < l.length)
    (hd : (l.get ⟨i, hi⟩).destroyed = false) (hv : (l.get ⟨i, hi⟩).visible = true) :
    List.Sublist [FEvent.draw (k + i), FEvent.upd (k + i)] (drawPhaseFrom k l) := by
  induction l generalizing k i with
  | nil => simp at hi
  | cons d rest ih =>
    unfold drawPhaseFrom
    cases i with
    | zero =>
      simp only [List.get] at hd hv
      have hblock : itemEvents k d = [FEvent.draw k, FEvent.upd k] := by
        unfold itemEvents
        simp [hd, hv]
      have h1 : List.Sublist [FEvent.draw (k + 0), FEvent.upd (k + 0)] (itemEvents k d) := by
        rw [hblock]
        simp
      exact h1.trans (List.sublist_append_left _ _)
    | succ m =>
      have hm : m < rest.length := by simpa using hi
      have hd' : (rest.get ⟨m, hm⟩).destroyed = false := by simpa [List.get] using hd
      have hv' : (rest.get ⟨m, hm⟩).visible = true := by simpa [List.get] using hv
      have h1 := ih (k + 1) m hm hd' hv'
      have h2 : List.Sublist (drawPhaseFrom (k + 1) rest) (itemEvents k d ++ drawPhaseFrom (k + 1) rest) :=
        List.sublist_append_right _ _
      have := h1.trans h2
      simpa [Nat.add_assoc, Nat.add_comm 1 m] using this

theorem drawPhaseFrom_upd_pair (l : List DItem) (k i j : ℕ) (hij : i < j) (hj : j < l.length) :
    List.Sublist [FEvent.upd (k + i), FEvent.upd (k + j)] (drawPhaseFrom k l) := by
  induction l generalizing k i j with
  | nil => simp at hj
  | cons d rest ih =>
    unfold drawPhaseFrom
    cases i with
    | zero =>
      obtain ⟨m, rfl⟩ : ∃ m, j = m + 1 := ⟨j - 1, by omega⟩
      have hm : m < rest.length := by simpa using hj
      have h1 : List.Sublist [FEvent.upd (k + 0)] (itemEvents k d) := by
        simpa using itemEvents_upd_sublist k d
      have h2 : List.Sublist [FEvent.upd (k + (m + 1))] (drawPhaseFrom (k + 1) rest) := by
        have := drawPhaseFrom_upd_mem rest (k + 1) m hm
        rw [List.singleton_sublist]
        simpa [Nat.add_assoc, Nat.add_comm 1 m] using this
      exact List.Sublist.append h1 h2
    | succ n =>
      obtain ⟨m, rfl⟩ : ∃ m, j = m + 1 := ⟨j - 1, by omega⟩
      have hm : m < rest.length := by simpa using hj
      have h1 := ih (k + 1) n m (by omega) hm
      have h2 : List.Sublist (drawPhaseFrom (k + 1) rest) (itemEvents k d ++ drawPhaseFrom (k + 1) rest) :=
        List.sublist_append_right _ _
      have := h1.trans h2
      simpa [Nat.add_assoc, Nat.add_comm 1 n, Nat.add_comm 1 m] using this

theorem frameTrace_assoc (l : List DItem) :
    frameTrace l =
      drawPhaseFrom 0 l ++ ([FEvent.flipScreen] ++ (reapPhaseFrom 0 l ++ [FEvent.capture])) := by
  unfold frameTrace
  simp [List.append_assoc]

theorem sublist_frameTrace_of_drawPhase (l : List DItem) (es : List FEvent)
    (h : List.Sublist es (drawPhaseFrom 0 l)) : List.Sublist es (frameTrace l) := by
  rw [frameTrace_assoc]
  exact h.trans (List.sublist_append_left _ _)

theorem drawPhaseFrom_draw_index_ge (l : List DItem) (k m : ℕ)
    (h : FEvent.draw m ∈ drawPhaseFrom k l) : k ≤ m := by
  induction l generalizing k with
  | nil => simp [drawPhaseFrom] at h
  | cons d rest ih =>
    unfold drawPhaseFrom at h
    rw [List.mem_append] at h
    cases h with
    | inl h =>
      unfold itemEvents at h
      rcases Decidable.em (d.destroyed = false ∧ d.visible = true) with hc | hc
      · simp [hc] at h
        omega
      · simp [hc] at h
    | inr h =>
      have := ih (k + 1) h
      omega

theorem drawPhaseFrom_destroyed_not_drawn (l : List DItem) (k i : ℕ) (hi : i < l.length)
    (hd : (l.get ⟨i, hi⟩).destroyed = true) :
    FEvent.draw (k + i) ∉ drawPhaseFrom k l := by
  induction l generalizing k i with
  | nil => simp at hi
  | cons d rest ih =>
    unfold drawPhaseFrom
    rw [List.mem_append]
    intro h
    cases i with
    | zero =>
      simp only [List.get] at hd
      cases h with
      | inl h =>
        unfold itemEvents at h
        simp [hd] at h
      | inr h =>
        have := drawPhaseFrom_draw_index_ge rest (k + 1) (k + 0) h
        omega
    | succ m =>
      have hm : m < rest.length := by simpa using hi
      have hd' : (rest.get ⟨m, hm⟩).destroyed = true := by simpa [List.get] using hd
      cases h with
      | inl h =>
        unfold itemEvents at h
        rcases Decidable.em (d.destroyed = false ∧ d.visible = true) with hc | hc
        · simp [hc] at h
        · simp [hc] at h
      | inr h =>
        have h' : FEvent.draw ((k + 1) + m) ∈ drawPhaseFrom (k + 1) rest := by
          simpa [Nat.add_assoc, Nat.add_comm 1 m] using h
        exact ih (k + 1) m hm hd' h'

theorem reapPhaseFrom_mem (l : List DItem) (k i : ℕ) (hi : i < l.length)
    (hd : (l.get ⟨i, hi⟩).destroyed = true) :
    FEvent.reap (k + i) ∈ reapPhaseFrom k l := by
  induction l generalizing k i with
  | nil => simp at hi
  | cons d rest ih =>
    unfold reapPhaseFrom
    rw [List.mem_append]
    cases i with
    | zero =>
      simp only [List.get] at hd
      left
      simp [hd]
    | succ m =>
      have hm : m < rest.length := by simpa using hi
      have hd' : (rest.get ⟨m, hm⟩).destroyed = true := by simpa [List.get] using hd
      right
      have := ih (k + 1) m hm hd'
      simpa [Nat.add_assoc, Nat.add_comm 1 m] using this

/-- Claim C1, counterexample.  With two live, visible drawables the
frame trace is `draw 0, upd 0, draw 1, upd 1, ...`: the update of the
back drawable happens before the draw of the front one, so it is NOT
the case that every drawable's draw precedes every drawable's update.
The claimed all-draws-before-all-updates ordering fails already on
this two-element draw list. -/
theorem finish_frame_phased_order_cex :
    ¬ List.Sublist [FEvent.draw 1, FEvent.upd 0]
        (frameTrace [⟨false, true⟩, ⟨false, true⟩]) := by
  decide

/-- Claim C1, amended.  During one `finish_frame` call the drawables
are processed in back-to-front draw-list order, and each drawable's
draw is performed before its own update; updates of earlier (more to
the back) drawables also precede updates of later ones.  Draw and
update are interleaved per drawable, so (by the counterexample) a
drawable's update may precede the draw of a drawable in front of it. -/
theorem finish_frame_draw_update_order (l : List DItem) (i j : ℕ)
    (hi : i < l.length) (hj : j < l.length) :
    ((l.get ⟨i, hi⟩).destroyed = false → (l.get ⟨i, hi⟩).visible = true →
      List.Sublist [FEvent.draw i, FEvent.upd i] (frameTrace l))
    ∧ (i < j → List.Sublist [FEvent.upd i, FEvent.upd j] (frameTrace l)) := by
  constructor
  · intro hd hv
    have h := drawPhaseFrom_own_order l 0 i hi hd hv
    simpa using sublist_frameTrace_of_drawPhase l _ (by simpa using h)
  · intro hij
    have h := drawPhaseFrom_upd_pair l 0 i j hij hj
    simpa using sublist_frameTrace_of_drawPhase l _ (by simpa using h)

/-- Witness for `finish_frame_draw_update_order` on a concrete
two-element draw list. -/
theorem finish_frame_draw_update_order_witness :
    (([⟨false, true⟩, ⟨false, true⟩] : List DItem).get ⟨0, by decide⟩).destroyed = false
    ∧ List.Sublist [FEvent.draw 0, FEvent.upd 0]
        (frameTrace [⟨false, true⟩, ⟨false, true⟩])
    ∧ List.Sublist [FEvent.upd 0, FEvent.upd 1]
        (frameTrace [⟨false, true⟩, ⟨false, true⟩]) :=
  ⟨by decide,
   (finish_frame_draw_update_order [⟨false, true⟩, ⟨false, true⟩] 0 1
      (by decide) (by decide)).1 (by decide) (by decide),
   (finish_frame_draw_update_order [⟨false, true⟩, ⟨false, true⟩] 0 1
      (by decide) (by decide)).2 (by decide)⟩

/-- Claim C2, counterexample.  A drawable whose destroyed flag is set
before the frame step is NOT drawn during that step, even though it is
visible: `finish_frame` skips `_draw()` for destroyed items
(tsapp.py line 340), so "the object is still drawn if it is not
invisible" fails. -/
theorem destroyed_still_drawn_cex :
    (DItem.mk true true).visible = true
    ∧ FEvent.draw 0 ∉ frameTrace [⟨true, true⟩] := by
  constructor
  · rfl
  · decide

/-- Claim C2, amended.  A drawable whose destroyed flag is set before
a frame step is not drawn during that step (draws are skipped for
destroyed drawables regardless of visibility); it still receives the
frame's update; it is removed from the draw list after the draw+update
pass and before the frame's input events are captured; and the draw
list left for the next frame contains no destroyed entries. -/
theorem destroyed_item_frame_lifecycle (l : List DItem) (i : ℕ) (hi : i < l.length)
    (hd : (l.get ⟨i, hi⟩).destroyed = true) :
    FEvent.draw i ∉ frameTrace l
    ∧ List.Sublist [FEvent.upd i, FEvent.reap i, FEvent.capture] (frameTrace l)
    ∧ ∀ d ∈ frameReap l, d.destroyed = false := by
  refine ⟨?_, ?_, ?_⟩
  · rw [frameTrace_assoc]
    rw [List.mem_append]
    intro h
    cases h with
    | inl h =>
      exact drawPhaseFrom_destroyed_not_drawn l 0 i hi hd (by simpa using h)
    | inr h =>
      rw [List.mem_append] at h
      cases h with
      | inl h => simp at h
      | inr h =>
        rw [List.mem_append] at h
        cases h with
        | inl h =>
          -- the reap phase contains only `reap` and no `draw` events
          induction l generalizing i with
          | nil => simp [reapPhaseFrom] at h
          | cons d rest ih =>
            unfold reapPhaseFrom at h
            rw [List.mem_append] at h
            cases h with
            | inl h =>
              rcases Decidable.em (d.destroyed = true) with hc | hc
              · simp [hc] at h
              · simp [hc] at h
            | inr h =>
              -- generalize over the starting index of the reap phase
              revert h
              have aux : ∀ (rest' : List DItem) (k : ℕ),
                  FEvent.draw i ∉ reapPhaseFrom k rest' := by
                intro rest' k
                induction rest' generalizing k with
                | nil => simp [reapPhaseFrom]
                | cons e es ihe =>
                  unfold reapPhaseFrom
                  rw [List.mem_append]
                  intro hmem
                  cases hmem with
                  | inl hmem =>
                    rcases Decidable.em (e.destroyed = true) with hc | hc
                    · simp [hc] at hmem
                    · simp [hc] at hmem
                  | inr hmem => exact ihe (k + 1) hmem
              exact aux rest 1
        | inr h => simp at h
  · rw [frameTrace_assoc]
    have h1 : List.Sublist [FEvent.upd i] (drawPhaseFrom 0 l) := by
      rw [List.singleton_sublist]
      simpa using drawPhaseFrom_upd_mem l 0 i hi
    have h2 : List.Sublist [FEvent.reap i] (reapPhaseFrom 0 l) := by
      rw [List.singleton_sublist]
      simpa using reapPhaseFrom_mem l 0 i hi hd
    have h3 : List.Sublist [FEvent.reap i, FEvent.capture]
        (reapPhaseFrom 0 l ++ [FEvent.capture]) :=
      List.Sublist.append h2 (List.Sublist.refl _)
    have h4 : List.Sublist [FEvent.reap i, FEvent.capture]
        ([FEvent.flipScreen] ++ (reapPhaseFrom 0 l ++ [FEvent.capture])) :=
      h3.trans (List.sublist_append_right _ _)
    exact List.Sublist.append h1 h4
  · intro d hdm
    rw [frameReap, List.mem_filter] at hdm
    simpa using hdm.2

/-- Witness for `destroyed_item_frame_lifecycle` on a concrete
one-element draw list holding a destroyed, visible drawable. -/
theorem destroyed_item_frame_lifecycle_witness :
    (([⟨true, true⟩] : List DItem).get ⟨0, by decide⟩).destroyed = true
    ∧ FEvent.draw 0 ∉ frameTrace [⟨true, true⟩]
    ∧ List.Sublist [FEvent.upd 0, FEvent.reap 0, FEvent.capture] (frameTrace [⟨true, true⟩])
    ∧ ∀ d ∈ frameReap [⟨true, true⟩], d.destroyed = false :=
  ⟨by decide,
   (destroyed_item_frame_lifecycle [⟨true, true⟩] 0 (by decide) (by decide)).1,
   (destroyed_item_frame_lifecycle [⟨true, true⟩] 0 (by decide) (by decide)).2.1,
   (destroyed_item_frame_lifecycle [⟨true, true⟩] 0 (by decide) (by decide)).2.2⟩

/-! ### Text wrapping (`TextLabel._wrap_into_lines`, tsapp.py lines 1099-1143)

Python strings are embedded as lists of characters.  `pySplit` is
Python's `str.split(sep)` for a one-character separator: it keeps
empty fragments and returns `[""]` for the empty string.  The font's
`get_rect(...).width` metric is an opaque backend function
`measure : List Char → ℤ` (pygame reports integer pixel widths); the
wrapping algorithm only ever measures whole candidate lines, exactly
as the source does. -/

/-- Python `str.split(sep)` for a single-character separator `sep`:
splits at every occurrence, keeping empty fragments. -/
def pySplit (sep : Char) : List Char → List (List Char)
  | [] => [[]]
  | c :: rest =>
    if c = sep then [] :: pySplit sep rest
    else
      match pySplit sep rest with
      | [] => [[c]]
      | w :: ws => (c :: w) :: ws

/-- The greedy inner loop of `_wrap_into_lines` over the words of one
hard line (tsapp.py lines 1115-1142): `acc` is `intermediate_line`.
The candidate line including the next word is measured as a whole
(lines 1120-1123); an overflowing candidate commits the current line
and starts a new one with the pending word (lines 1126-1135); a single
word wider than the label is committed alone (lines 1128-1132); the
final partial line is always committed (line 1142). -/
def wrapWords (measure : List Char → ℤ) (W : ℤ) : List (List Char) → List Char → List (List Char)
  | [], acc => [acc]
  | w :: ws, acc =>
    let nextWidth := if acc = [] then measure w else measure (acc ++ [' '] ++ w)
    if W < nextWidth then
      if acc = [] then w :: wrapWords measure W ws []
      else acc :: wrapWords measure W ws w
    else wrapWords measure W ws (if acc = [] then w else acc ++ [' '] ++ w)

/-- `TextLabel._wrap_into_lines`: the text is split on newlines into
hard lines (line 1109), each hard line is split on spaces and wrapped
greedily, and the resulting lines are concatenated (lines 1111-1143). -/
def wrapIntoLines (measure : List Char → ℤ) (W : ℤ) (text : List Char) : List (List Char) :=
  (pySplit '\n' text).flatMap (fun line => wrapWords measure W (pySplit ' ' line) [])

/-- All the space-separated words of all the hard lines of `text`,
i.e. every string the wrapping loop ever treats as a single word. -/
def wrapAllWords (text : List Char) : List (List Char) :=
  (pySplit '\n' text).flatMap (fun line => pySplit ' ' line)

theorem pySplit_ne_nil (sep : Char) (s : List Char) : pySplit sep s ≠ [] := by
  cases s with
  | nil => simp [pySplit]
  | cons c rest =>
    unfold pySplit
    rcases Decidable.em (c = sep) with hc | hc
    · simp [hc]
    · rcases h : pySplit sep rest with _ | ⟨w, ws⟩ <;> simp [hc, h]

theorem wrapWords_bound_of_acc (measure : List Char → ℤ) (W : ℤ) :
    ∀ (ws : List (List Char)) (acc : List Char),
      (∀ w ∈ ws, measure w ≤ W) → measure acc ≤ W →
      ∀ l ∈ wrapWords measure W ws acc, measure l ≤ W := by
  intro ws
  induction ws with
  | nil =>
    intro acc _ hacc l hl
    unfold wrapWords at hl
    simp at hl
    exact hl ▸ hacc
  | cons w ws ih =>
    intro acc hws hacc l hl
    have hw : measure w ≤ W := hws w (by simp)
    have hws' : ∀ u ∈ ws, measure u ≤ W := fun u hu => hws u (by simp [hu])
    unfold wrapWords at hl
    rcases Decidable.em (acc = []) with he | he
    · -- an empty line plus a word that fits: the word starts the line
      rw [if_pos he] at hl
      rw [if_neg (not_lt.mpr hw)] at hl
      rw [if_pos he] at hl
      exact ih w hws' hw l hl
    · rw [if_neg he] at hl
      rcases Decidable.em (W < measure (acc ++ [' '] ++ w)) with hlt | hlt
      · -- overflow: commit the current line, restart with the word
        rw [if_pos hlt, if_neg he] at hl
        rcases List.mem_cons.mp hl with rfl | hl
        · exact hacc
        · exact ih w hws' hw l hl
      · -- the candidate fits and becomes the new current line
        rw [if_neg hlt, if_neg he] at hl
        exact ih (acc ++ [' '] ++ w) hws' (not_lt.mp hlt) l hl

theorem wrapWords_bound_start (measure : List Char → ℤ) (W : ℤ)
    (ws : List (List Char)) (hne : ws ≠ []) (hws : ∀ w ∈ ws, measure w ≤ W) :
    ∀ l ∈ wrapWords measure W ws [], measure l ≤ W := by
  cases ws with
  | nil => exact absurd rfl hne
  | cons w ws =>
    intro l hl
    have hw : measure w ≤ W := hws w (by simp)
    have hws' : ∀ u ∈ ws, measure u ≤ W := fun u hu => hws u (by simp [hu])
    unfold wrapWords at hl
    simp only [eq_self_iff_true, if_true] at hl
    rw [if_neg (not_lt.mpr hw)] at hl
    exact wrapWords_bound_of_acc measure W ws w hws' hw l hl

/-- Claim C4.  For every wrap width `W`, every integer-valued measure
function, and every text none of whose words measures wider than `W`,
every line produced by `TextLabel._wrap_into_lines` measures at most
`W`: the candidate including the next word is measured as a whole and
a line is committed before it would exceed `W`. -/
theorem wrap_lines_within_width (measure : List Char → ℤ) (W : ℤ) (text : List Char)
    (hwords : ∀ w ∈ wrapAllWords text, measure w ≤ W) :
    ∀ l ∈ wrapIntoLines measure W text, measure l ≤ W := by
  intro l hl
  rw [wrapIntoLines, List.mem_flatMap] at hl
  obtain ⟨line, hline, hl⟩ := hl
  have hws : ∀ w ∈ pySplit ' ' line, measure w ≤ W := by
    intro w hw
    exact hwords w (by rw [wrapAllWords, List.mem_flatMap]; exact ⟨line, hline, hw⟩)
  exact wrapWords_bound_start measure W (pySplit ' ' line) (pySplit_ne_nil ' ' line) hws l hl

/-- Witness for `wrap_lines_within_width`: with character count as the
measure and width 9, the specification's example text splits into
"The quick" / "brown fox", and both lines measure at most 9. -/
theorem wrap_lines_within_width_witness :
    (∀ w ∈ wrapAllWords "The quick brown fox".toList,
        (fun (s : List Char) => (s.length : ℤ)) w ≤ 9)
    ∧ (∀ l ∈ wrapIntoLines (fun s => (s.length : ℤ)) 9 "The quick brown fox".toList,
        (fun (s : List Char) => (s.length : ℤ)) l ≤ 9)
    ∧ wrapIntoLines (fun s => (s.length : ℤ)) 9 "The quick brown fox".toList
        = ["The quick".toList, "brown fox".toList] :=
  ⟨by decide,
   wrap_lines_within_width (fun s => (s.length : ℤ)) 9 "The quick brown fox".toList (by decide),
   by decide⟩

/-! ### Animated sprite state (`Sprite._set_image`, `_set_image_animation_rate`,
`Sprite._update`, tsapp.py lines 507-555, 591-612, 830-862)

The animation state of a sprite is `(image descriptor, cell count,
current cell index, accumulated per-cell time, animation rate,
time-per-cell)`.  Image descriptors are abstracted as identifiers with
decidable equality (`_set_image` compares them with `==`); the cells
themselves are pixel buffers owned by the backend, so only their count
matters here.  The sidecar-metadata lookup (`open(... + ".json")`,
lines 520-525) is a parameter `meta : descriptor → Option (rows, cols)`;
`none` models the `IOError` path (no sidecar file, single static cell).
Times and rates are exact rationals.  The geometric side of
`_set_image` (the center restore) is handled with the transform cache
section below and is independent of the animation state.

In the Python source `image_animation_rate = None` means "advance one
cell per rendered frame" (the property's docstring, lines 617-623) and
is stored together with `_time_per_cell = None`; rate `0` freezes the
animation and is stored as the sentinel `_time_per_cell = -1`; a
positive rate `R` is stored as `_time_per_cell = 1000 / R`. -/

/-- Animation-relevant state of a `Sprite`. -/
structure AnimSprite where
  image : ℕ
  numCells : ℕ
  idx : ℕ
  timeVisible : ℚ
  rate : Option ℚ
  timePerCell : Option ℚ
deriving DecidableEq, Repr

/-- Errors raised by the sprite animation methods: a negative or
non-numeric animation rate (`_set_image_animation_rate`, lines
600-605) and sheet grid dimensions below one (`ImageSheet.__init__`,
lines 882-883). -/
inductive AnimErr where
  | invalidRate
  | invalidGrid
deriving DecidableEq, Repr

/-- `Sprite._set_image_animation_rate` (tsapp.py lines 591-612):
computes `_time_per_cell` from the rate (`None` stays `None`, `0`
becomes the sentinel `-1`, positive `R` becomes `1000 / R`, negative
rates raise), stores both fields and resets the accumulated cell
time. -/
def setImageAnimationRate (s : AnimSprite) : Option ℚ → Except AnimErr AnimSprite
  | none => Except.ok { s with rate := none, timePerCell := none, timeVisible := 0 }
  | some x =>
    if 0 < x then
      Except.ok { s with rate := some x, timePerCell := some (1000 / x), timeVisible := 0 }
    else if x = 0 then
      Except.ok { s with rate := some 0, timePerCell := some (-1), timeVisible := 0 }
    else Except.error AnimErr.invalidRate

/-- Tail of `Sprite._set_image` (tsapp.py lines 544-552): on the image
and cell fields of the state produced by the optional rate defaulting,
store the new descriptor, replace the cells, reset the current cell
index to 0 and reset the accumulated cell time; an error from the rate
setter propagates. -/
def setImageFinish (desc cells : ℕ) : Except AnimErr AnimSprite → Except AnimErr AnimSprite
  | Except.ok s1 =>
    Except.ok { s1 with image := desc, numCells := cells, idx := 0, timeVisible := 0 }
  | Except.error e => Except.error e

/-- Body of `Sprite._set_image` after the sidecar lookup (tsapp.py
lines 522-552), split on the lookup result.  With metadata, the sheet
is sliced into `rows * cols` cells (`ImageSheet.__init__` validates
`rows ≥ 1` and `cols ≥ 1`, lines 882-883), and if no animation rate
was previously configured the rate property is set to `rows * cols`
(lines 527-530); without metadata (`IOError` path, line 533) the image
is a single static cell. -/
def setImageWithMeta (s : AnimSprite) (desc : ℕ) : Option (ℕ × ℕ) → Except AnimErr AnimSprite
  | some rc =>
    if 1 ≤ rc.1 ∧ 1 ≤ rc.2 then
      setImageFinish desc (rc.1 * rc.2)
        (if s.rate = none then setImageAnimationRate s (some ((rc.1 * rc.2 : ℕ) : ℚ))
         else Except.ok s)
    else Except.error AnimErr.invalidGrid
  | none => Except.ok { s with image := desc, numCells := 1, idx := 0, timeVisible := 0 }

/-- `Sprite._set_image` on the non-`init` path (tsapp.py lines
507-555): setting the identical descriptor returns immediately (lines
513-515), otherwise the sidecar metadata for the new descriptor is
looked up and the image is replaced. -/
def setImage (meta : ℕ → Option (ℕ × ℕ)) (s : AnimSprite) (desc : ℕ) :
    Except AnimErr AnimSprite :=
  if desc = s.image then Except.ok s else setImageWithMeta s desc (meta desc)

/-- `Sprite._update` restricted to the animation state (tsapp.py lines
830-862; the positional part lives in `RectangularObject._update`).
The elapsed time is always accumulated (line 839); then the sentinel
`-1` freezes the animation, `None` advances one cell per frame when
there is more than one cell (lines 845-850), and a positive
time-per-cell advances by the whole number of elapsed cells, keeping
the division remainder (`divmod`, lines 856-862). -/
def spriteUpdate (s : AnimSprite) (dt : ℚ) : AnimSprite :=
  let t := s.timeVisible + dt
  match s.timePerCell with
  | some tpc =>
    if tpc = -1 then { s with timeVisible := t }
    else if tpc ≤ t then
      { s with timeVisible := t - ⌊t / tpc⌋ * tpc,
               idx := (s.idx + (⌊t / tpc⌋).toNat) % s.numCells }
    else { s with timeVisible := t }
  | none =>
    { s with timeVisible := t,
             idx := if 1 < s.numCells then (if s.idx + 1 = s.numCells then 0 else s.idx + 1)
                    else s.idx }

/-- Sprite with no previously configured animation rate, used to
refute the claimed "one cell per frame" default. -/
def spriteNoRate : AnimSprite :=
  { image := 0, numCells := 1, idx := 0, timeVisible := 0, rate := none, timePerCell := none }

/-- Metadata table for the counterexample: descriptor `1` has a
sidecar declaring 2 rows and 3 columns. -/
def metaTwoByThree : ℕ → Option (ℕ × ℕ) :=
  fun d => if d = 1 then some (2, 3) else none

/-- Claim C3, counterexample.  Setting a 2x3 sheet image on a sprite
with no previously configured rate does NOT default the rate to "one
cell per frame" (which this library represents as rate `None`): the
rate becomes `rows * cols = 6` cells per second.  The two policies are
observably different: after the image is set, a 100 ms frame leaves
the cell index at 0 (100 < 1000/6), whereas the one-cell-per-frame
policy (rate `None`) advances the index to 1 on any frame. -/
theorem set_image_default_rate_cex :
    Except.map AnimSprite.rate (setImage metaTwoByThree spriteNoRate 1)
        = Except.ok (some 6)
    ∧ Except.map AnimSprite.rate (setImage metaTwoByThree spriteNoRate 1)
        ≠ Except.ok none
    ∧ Except.map (fun s => (spriteUpdate s 100).idx) (setImage metaTwoByThree spriteNoRate 1)
        = Except.ok 0
    ∧ (spriteUpdate { spriteNoRate with numCells := 6 } 100).idx = 1 := by
  refine ⟨?_, ?_, ?_, ?_⟩
  · norm_num [setImage, setImageWithMeta, setImageFinish, setImageAnimationRate,
      metaTwoByThree, spriteNoRate, Except.map]
  · norm_num [setImage, setImageWithMeta, setImageFinish, setImageAnimationRate,
      metaTwoByThree, spriteNoRate, Except.map]
    exact Option.some_ne_none _
  · norm_num [setImage, setImageWithMeta, setImageFinish, setImageAnimationRate,
      metaTwoByThree, spriteNoRate, Except.map, spriteUpdate]
  · norm_num [spriteUpdate, spriteNoRate]

/-- Claim C3, amended.  Setting the image to a new descriptor resets
the current cell index to 0 and the accumulated cell time to 0, and
preserves a previously configured animation rate (and its derived
time-per-cell).  If no rate was previously set, the rate becomes
`rows * cols` cells per second when the new image carries sheet
metadata (the full sheet plays in one second - not one cell per
frame), and stays unset (`None`, i.e. one cell per frame) when it does
not. -/
theorem set_image_resets_and_rate (meta : ℕ → Option (ℕ × ℕ)) (s s1 : AnimSprite) (desc : ℕ)
    (hne : desc ≠ s.image) (hok : setImage meta s desc = Except.ok s1) :
    s1.idx = 0 ∧ s1.timeVisible = 0
    ∧ (s.rate ≠ none → s1.rate = s.rate ∧ s1.timePerCell = s.timePerCell)
    ∧ (s.rate = none → ∀ rc : ℕ × ℕ, meta desc = some rc →
        s1.rate = some ((rc.1 * rc.2 : ℕ) : ℚ))
    ∧ (s.rate = none → meta desc = none → s1.rate = none) := by
  rw [setImage, if_neg hne] at hok
  rcases hmeta : meta desc with _ | rc
  · rw [hmeta] at hok
    simp only [setImageWithMeta] at hok
    injection hok with hok
    subst hok
    exact ⟨rfl, rfl, fun _ => ⟨rfl, rfl⟩, fun _ rc h => Option.noConfusion h, fun hr _ => hr⟩
  · rw [hmeta] at hok
    simp only [setImageWithMeta] at hok
    rcases Decidable.em (1 ≤ rc.1 ∧ 1 ≤ rc.2) with hgrid | hgrid
    · rw [if_pos hgrid] at hok
      rcases hrate : s.rate with _ | x
      · rw [if_pos hrate] at hok
        have hpos : (0 : ℚ) < ((rc.1 * rc.2 : ℕ) : ℚ) := by
          have h1 : 1 ≤ rc.1 * rc.2 := by
            have := Nat.mul_le_mul hgrid.1 hgrid.2
            simpa using this
          exact_mod_cast Nat.lt_of_lt_of_le Nat.zero_lt_one h1
        simp only [setImageAnimationRate] at hok
        rw [if_pos hpos] at hok
        simp only [setImageFinish] at hok
        injection hok with hok
        subst hok
        refine ⟨rfl, rfl, fun h => absurd rfl h, fun _ rc' h => ?_, fun _ h => Option.noConfusion h⟩
        injection h with h
        subst h
        rfl
      · rw [if_neg (by rw [hrate]; exact fun h => by cases h)] at hok
        simp only [setImageFinish] at hok
        injection hok with hok
        subst hok
        exact ⟨rfl, rfl, fun _ => ⟨hrate, rfl⟩,
          fun hr => Option.noConfusion hr, fun hr => Option.noConfusion hr⟩
    · rw [if_neg hgrid] at hok
      cases hok

/-- Sprite with a previously configured animation rate of 5 cells per
second (`_time_per_cell = 1000 / 5 = 200`). -/
def spriteWithRate : AnimSprite :=
  { image := 0, numCells := 1, idx := 3, timeVisible := 70, rate := some 5,
    timePerCell := some 200 }

/-- State of `spriteWithRate` after setting the 2x3 sheet image `1`. -/
def spriteAfterImage : AnimSprite :=
  { image := 1, numCells := 6, idx := 0, timeVisible := 0, rate := some 5,
    timePerCell := some 200 }

theorem setImage_spriteWithRate_eval :
    setImage metaTwoByThree spriteWithRate 1 = Except.ok spriteAfterImage := by
  rw [setImage, if_neg (by norm_num [spriteWithRate])]
  rw [show metaTwoByThree 1 = some (2, 3) from rfl]
  simp only [setImageWithMeta]
  rw [if_pos (by norm_num)]
  rw [if_neg (show ¬ (spriteWithRate.rate = none) from fun h => Option.noConfusion h)]
  simp only [setImageFinish]
  norm_num [spriteWithRate, spriteAfterImage]

/-- Witness for `set_image_resets_and_rate`: setting a new 2x3 sheet
image on a sprite with configured rate 5 resets index and time and
keeps the rate. -/
theorem set_image_resets_and_rate_witness :
    (1 : ℕ) ≠ spriteWithRate.image
    ∧ setImage metaTwoByThree spriteWithRate 1 = Except.ok spriteAfterImage
    ∧ (spriteAfterImage.idx = 0 ∧ spriteAfterImage.timeVisible = 0
       ∧ (spriteWithRate.rate ≠ none →
            spriteAfterImage.rate = spriteWithRate.rate
            ∧ spriteAfterImage.timePerCell = spriteWithRate.timePerCell)
       ∧ (spriteWithRate.rate = none → ∀ rc : ℕ × ℕ, metaTwoByThree 1 = some rc →
            spriteAfterImage.rate = some ((rc.1 * rc.2 : ℕ) : ℚ))
       ∧ (spriteWithRate.rate = none → metaTwoByThree 1 = none →
            spriteAfterImage.rate = none)) :=
  ⟨by norm_num [spriteWithRate],
   setImage_spriteWithRate_eval,
   set_image_resets_and_rate metaTwoByThree spriteWithRate spriteAfterImage 1
     (by norm_num [spriteWithRate]) setImage_spriteWithRate_eval⟩

/-- Claim C5.  For a sprite with positive animation rate `R` (so
`_time_per_cell = 1000 / R`) and at least one cell, a frame step first
adds the elapsed milliseconds to the accumulated cell time; if the
accumulated time is still below `1000 / R` nothing else changes, and
once it reaches `1000 / R` the cell index advances by
`floor(accumulated / (1000 / R))` modulo the cell count while the
division remainder becomes the new accumulated time. -/
theorem sprite_positive_rate_step (s : AnimSprite) (dt R : ℚ) (hR : 0 < R)
    (_hrate : s.rate = some R) (htpc : s.timePerCell = some (1000 / R))
    (_hn : 1 ≤ s.numCells) :
    (s.timeVisible + dt < 1000 / R →
      spriteUpdate s dt = { s with timeVisible := s.timeVisible + dt })
    ∧ (1000 / R ≤ s.timeVisible + dt →
      spriteUpdate s dt =
        { s with
            timeVisible :=
              (s.timeVisible + dt) - ⌊(s.timeVisible + dt) / (1000 / R)⌋ * (1000 / R),
            idx := (s.idx + (⌊(s.timeVisible + dt) / (1000 / R)⌋).toNat) % s.numCells }) := by
  have htpc_pos : (0 : ℚ) < 1000 / R := by positivity
  have hsent : ¬ (1000 / R = -1) := by
    intro h
    rw [h] at htpc_pos
    norm_num at htpc_pos
  constructor
  · intro hlt
    rw [spriteUpdate, htpc]
    simp only [if_neg hsent]
    rw [if_neg (not_le.mpr hlt)]
  · intro hge
    rw [spriteUpdate, htpc]
    simp only [if_neg hsent]
    rw [if_pos hge]

/-- Three-cell sprite with animation rate 2 cells per second
(`_time_per_cell = 1000 / 2 = 500`), starting on cell 0. -/
def spriteRateTwo : AnimSprite :=
  { image := 0, numCells := 3, idx := 0, timeVisible := 0, rate := some 2,
    timePerCell := some 500 }

/-- Witness for `sprite_positive_rate_step`, realizing the spec's
example: rate 2 cells/sec, 3 cells, three frame steps of 600 ms each.
Every step crosses the 500 ms threshold once and carries the
remainder, so the cell index shown in the three frames goes
0 -> 1 -> 2 (and wraps to 0 after the third step). -/
theorem sprite_positive_rate_step_witness :
    ((0 : ℚ) < 2 ∧ spriteRateTwo.timePerCell = some (1000 / 2) ∧ 1 ≤ spriteRateTwo.numCells)
    ∧ ((1000 : ℚ) / 2 ≤ spriteRateTwo.timeVisible + 600 →
        spriteUpdate spriteRateTwo 600 =
          { spriteRateTwo with
              timeVisible :=
                (spriteRateTwo.timeVisible + 600)
                  - ⌊(spriteRateTwo.timeVisible + 600) / (1000 / 2)⌋ * (1000 / 2),
              idx := (spriteRateTwo.idx
                  + (⌊(spriteRateTwo.timeVisible + 600) / (1000 / 2)⌋).toNat)
                  % spriteRateTwo.numCells })
    ∧ spriteRateTwo.idx = 0
    ∧ (spriteUpdate spriteRateTwo 600).idx = 1
    ∧ (spriteUpdate (spriteUpdate spriteRateTwo 600) 600).idx = 2
    ∧ (spriteUpdate (spriteUpdate (spriteUpdate spriteRateTwo 600) 600) 600).idx = 0 :=
  ⟨⟨by norm_num, by norm_num [spriteRateTwo], by norm_num [spriteRateTwo]⟩,
   (sprite_positive_rate_step spriteRateTwo 600 2 (by norm_num) (by norm_num [spriteRateTwo])
      (by norm_num [spriteRateTwo]) (by norm_num [spriteRateTwo])).2,
   by norm_num [spriteRateTwo],
   by norm_num [spriteUpdate, spriteRateTwo],
   by norm_num [spriteUpdate, spriteRateTwo],
   by norm_num [spriteUpdate, spriteRateTwo]⟩

/-! ### Transform cache and anchor invariant (`Sprite._transform_cell`,
`_set_scale`, `_set_angle`, `_set_flip_x`, `_set_flip_y`,
`RectangularObject` center properties, tsapp.py lines 416-447, 626-722)

Only the geometry of the transforms matters for these claims: the raw
cells enter as pixel sizes, `pygame.transform.scale` produces size
`(int(w * scale), int(h * scale))` (lines 630-637), `pygame.transform.flip`
preserves the size (lines 640-643), and `pygame.transform.rotate`
returns a backend-computed bounding box, abstracted as a parameter
`rot : size → angle → size` (lines 646-647).  Python's `int(...)`
truncates toward zero.  Positions and centers are exact rationals;
`width`/`height` read the current transformed cell (lines 651-657),
so the sprite's center is `(x + width / 2, y + height / 2)`
(lines 425-447).  The memoization in `_current_transformed_cell`
(lines 573-580) caches the value that `_transform_cell` computes, so
reading the size through the cache equals computing it; the cache
contents only matter for the unchanged-state claim, where they are
carried as a field of invalidation markers. -/

/-- Python `int(...)` on an exact rational: truncation toward zero. -/
def pyTrunc (q : ℚ) : ℤ :=
  if 0 ≤ q then ⌊q⌋ else ⌈q⌉

/-- Geometric state of a `Sprite`: raw cell sizes, the
transformed-cell cache (`none` marks an invalidated entry, `some sz`
a memoized transformed size), current cell index, transform
parameters, and position. -/
structure SpriteGeom where
  cells : List (ℤ × ℤ)
  tcache : List (Option (ℤ × ℤ))
  idx : ℕ
  scale : ℚ
  angle : ℚ
  flipX : Bool
  flipY : Bool
  x : ℚ
  y : ℚ
deriving DecidableEq, Repr

/-- Size of the raw current cell (`Sprite._current_cell`, line 570). -/
def rawCellSize (g : SpriteGeom) : ℤ × ℤ :=
  g.cells.getD g.idx (0, 0)

/-- Size of the current transformed cell (`Sprite._transform_cell`,
lines 626-649): scale (when `scale ≠ 1`), then flip (which keeps the
size), then rotate (when `angle ≠ 0`, with backend-computed bounding
box `rot`). -/
def transformSize (rot : ℤ × ℤ → ℚ → ℤ × ℤ) (g : SpriteGeom) : ℤ × ℤ :=
  let c := rawCellSize g
  let c1 := if g.scale ≠ 1
            then (pyTrunc ((c.1 : ℚ) * g.scale), pyTrunc ((c.2 : ℚ) * g.scale))
            else c
  if g.angle ≠ 0 then rot c1 g.angle else c1

/-- `Sprite.width` (lines 651-653): width of the current transformed
cell. -/
def spriteWidth (rot : ℤ × ℤ → ℚ → ℤ × ℤ) (g : SpriteGeom) : ℚ :=
  ((transformSize rot g).1 : ℚ)

/-- `Sprite.height` (lines 655-657): height of the current transformed
cell. -/
def spriteHeight (rot : ℤ × ℤ → ℚ → ℤ × ℤ) (g : SpriteGeom) : ℚ :=
  ((transformSize rot g).2 : ℚ)

/-- `RectangularObject.center` (lines 425-447) for a sprite:
`(x + width / 2, y + height / 2)`. -/
def spriteCenter (rot : ℤ × ℤ → ℚ → ℤ × ℤ) (g : SpriteGeom) : ℚ × ℚ :=
  (g.x + spriteWidth rot g / 2, g.y + spriteHeight rot g / 2)

/-- All cached transformed cells invalidated
(`Sprite._invalidate_transformed_cells`, lines 584-586). -/
def invalidateCache (g : SpriteGeom) : SpriteGeom :=
  { g with tcache := List.replicate g.tcache.length none }

/-- Restore a previously captured center (`self.center = old_center`,
which runs the `center_x` setter and then the `center_y` setter,
lines 428-429 and 436-437, reading the post-transform width and
height). -/
def restoreCenter (rot : ℤ × ℤ → ℚ → ℤ × ℤ) (c : ℚ × ℚ) (g : SpriteGeom) : SpriteGeom :=
  let g1 := { g with x := c.1 - spriteWidth rot g / 2 }
  { g1 with y := c.2 - spriteHeight rot g1 / 2 }

/-- The error raised by `Sprite._set_scale` when a dimension of the
scaled un-transformed cell falls below one pixel (lines 669-672). -/
inductive ScaleErr where
  | invalidScale
deriving DecidableEq, Repr

/-- `Sprite._set_scale` (tsapp.py lines 664-681): validate the scaled
raw-cell size against the one-pixel threshold first (raising leaves
the sprite untouched), then capture the center, store the scale,
invalidate the cache and restore the center. -/
def setScale (rot : ℤ × ℤ → ℚ → ℤ × ℤ) (g : SpriteGeom) (s : ℚ) :
    SpriteGeom × Option ScaleErr :=
  let c := rawCellSize g
  if pyTrunc ((c.1 : ℚ) * s) < 1 ∨ pyTrunc ((c.2 : ℚ) * s) < 1 then
    (g, some ScaleErr.invalidScale)
  else
    let oldCenter := spriteCenter rot g
    let g1 := invalidateCache { g with scale := s }
    (restoreCenter rot oldCenter g1, none)

/-- `Sprite._set_angle` (tsapp.py lines 714-720): capture the center,
store the angle, invalidate the cache, restore the center. -/
def setAngle (rot : ℤ × ℤ → ℚ → ℤ × ℤ) (g : SpriteGeom) (a : ℚ) : SpriteGeom :=
  let oldCenter := spriteCenter rot g
  let g1 := invalidateCache { g with angle := a }
  restoreCenter rot oldCenter g1

/-- `Sprite._set_flip_x` (tsapp.py lines 688-693): no-op when the flag
is unchanged, otherwise store it and invalidate the cache; the
position is not touched. -/
def setFlipX (g : SpriteGeom) (b : Bool) : SpriteGeom :=
  if g.flipX = b then g else invalidateCache { g with flipX := b }

/-- `Sprite._set_flip_y` (tsapp.py lines 700-705). -/
def setFlipY (g : SpriteGeom) (b : Bool) : SpriteGeom :=
  if g.flipY = b then g else invalidateCache { g with flipY := b }

theorem transformSize_indep_of_position (rot : ℤ × ℤ → ℚ → ℤ × ℤ) (g : SpriteGeom)
    (tc : List (Option (ℤ × ℤ))) (fx fy : Bool) (px py : ℚ) :
    transformSize rot { g with tcache := tc, flipX := fx, flipY := fy, x := px, y := py }
      = transformSize rot g := rfl

theorem restoreCenter_center (rot : ℤ × ℤ → ℚ → ℤ × ℤ) (c : ℚ × ℚ) (g : SpriteGeom) :
    spriteCenter rot (restoreCenter rot c g) = c := by
  have h1 : spriteCenter rot (restoreCenter rot c g)
      = (c.1 - spriteWidth rot g / 2 + spriteWidth rot g / 2,
         c.2 - spriteHeight rot { g with x := c.1 - spriteWidth rot g / 2 } / 2
           + spriteHeight rot { g with x := c.1 - spriteWidth rot g / 2 } / 2) := rfl
  have h2 : c = (c.1, c.2) := rfl
  rw [h1, h2]
  simp only [Prod.mk.injEq]
  constructor <;> ring

/-- Claim C7.  Every successful scale change, every angle change and
every flip change preserves the sprite's center
`(x + width / 2, y + height / 2)` computed from the current
transformed cell: scale and angle setters recompute the position from
the captured center after the transform, and flips never change the
transformed cell's dimensions. -/
theorem transform_center_invariant (rot : ℤ × ℤ → ℚ → ℤ × ℤ) (g : SpriteGeom)
    (s a : ℚ) (b1 b2 : Bool) :
    (∀ g', setScale rot g s = (g', none) → spriteCenter rot g' = spriteCenter rot g)
    ∧ spriteCenter rot (setAngle rot g a) = spriteCenter rot g
    ∧ spriteCenter rot (setFlipX g b1) = spriteCenter rot g
    ∧ spriteCenter rot (setFlipY g b2) = spriteCenter rot g := by
  refine ⟨?_, ?_, ?_, ?_⟩
  · intro g' h
    unfold setScale at h
    rcases Decidable.em
        (pyTrunc (((rawCellSize g).1 : ℚ) * s) < 1
          ∨ pyTrunc (((rawCellSize g).2 : ℚ) * s) < 1) with hc | hc
    · rw [if_pos hc] at h
      simp only [Prod.mk.injEq] at h
      cases h.2
    · rw [if_neg hc] at h
      simp only [Prod.mk.injEq] at h
      rw [← h.1]
      exact restoreCenter_center rot _ _
  · exact restoreCenter_center rot _ _
  · rcases Decidable.em (g.flipX = b1) with hb | hb
    · rw [setFlipX, if_pos hb]
    · rw [setFlipX, if_neg hb]
      rfl
  · rcases Decidable.em (g.flipY = b2) with hb | hb
    · rw [setFlipY, if_pos hb]
    · rw [setFlipY, if_neg hb]
      rfl

/-- Backend rotation-size function for the witnesses: the bounding box
of a cell rotated by an odd multiple of 90 degrees swaps the
dimensions. -/
def rotSwap : ℤ × ℤ → ℚ → ℤ × ℤ := fun sz _ => (sz.2, sz.1)

/-- Concrete sprite geometry: one 10x20 raw cell at scale 1,
angle 0, no flips, position (5, 7). -/
def gBase : SpriteGeom :=
  { cells := [(10, 20)], tcache := [none], idx := 0, scale := 1, angle := 0,
    flipX := false, flipY := false, x := 5, y := 7 }

/-- `gBase` after a successful `scale = 2`: the center (10, 17) is
restored around the new 20x40 transformed cell. -/
def gScaled : SpriteGeom :=
  { cells := [(10, 20)], tcache := [none], idx := 0, scale := 2, angle := 0,
    flipX := false, flipY := false, x := 0, y := -3 }

theorem setScale_gBase_eval : setScale rotSwap gBase 2 = (gScaled, none) := by
  rw [setScale]
  rw [if_neg (by norm_num [rawCellSize, gBase, pyTrunc])]
  norm_num [restoreCenter, invalidateCache, spriteCenter, spriteWidth, spriteHeight,
    transformSize, rawCellSize, pyTrunc, gBase, gScaled]

/-- Witness for `transform_center_invariant`: a successful doubling of
the scale, an angle change and a flip on the concrete sprite `gBase`
all keep its center at (10, 17). -/
theorem transform_center_invariant_witness :
    setScale rotSwap gBase 2 = (gScaled, none)
    ∧ spriteCenter rotSwap gScaled = spriteCenter rotSwap gBase
    ∧ spriteCenter rotSwap (setAngle rotSwap gBase 90) = spriteCenter rotSwap gBase
    ∧ spriteCenter rotSwap (setFlipX gBase true) = spriteCenter rotSwap gBase
    ∧ spriteCenter rotSwap gBase = (10, 17) :=
  ⟨setScale_gBase_eval,
   (transform_center_invariant rotSwap gBase 2 90 true false).1 gScaled setScale_gBase_eval,
   (transform_center_invariant rotSwap gBase 2 90 true false).2.1,
   (transform_center_invariant rotSwap gBase 2 90 true false).2.2.1,
   by norm_num [spriteCenter, spriteWidth, spriteHeight, transformSize, rawCellSize, gBase]⟩

/-- Claim C8.  A scale that would shrink the un-transformed current
cell below one pixel in either dimension is rejected: `_set_scale`
validates `int(width * scale)` and `int(height * scale)` against the
one-pixel threshold before any mutation, raises, and leaves the
sprite's scale, transformed-cell cache, position and center exactly as
they were. -/
theorem invalid_scale_rejected (rot : ℤ × ℤ → ℚ → ℤ × ℤ) (g : SpriteGeom) (s : ℚ)
    (h : pyTrunc (((rawCellSize g).1 : ℚ) * s) < 1
      ∨ pyTrunc (((rawCellSize g).2 : ℚ) * s) < 1) :
    setScale rot g s = (g, some ScaleErr.invalidScale)
    ∧ (setScale rot g s).1.scale = g.scale
    ∧ (setScale rot g s).1.tcache = g.tcache
    ∧ (setScale rot g s).1.x = g.x
    ∧ (setScale rot g s).1.y = g.y
    ∧ spriteCenter rot (setScale rot g s).1 = spriteCenter rot g := by
  have he : setScale rot g s = (g, some ScaleErr.invalidScale) := by
    rw [setScale, if_pos h]
  exact ⟨he, by rw [he], by rw [he], by rw [he], by rw [he], by rw [he]⟩

/-- Witness for `invalid_scale_rejected`: scaling the 10x20 cell of
`gBase` by 1/100 would give `int(10 * 1/100) = 0` pixels of width, so
the setter fails and returns the state unchanged. -/
theorem invalid_scale_rejected_witness :
    (pyTrunc (((rawCellSize gBase).1 : ℚ) * (1 / 100)) < 1
      ∨ pyTrunc (((rawCellSize gBase).2 : ℚ) * (1 / 100)) < 1)
    ∧ setScale rotSwap gBase (1 / 100) = (gBase, some ScaleErr.invalidScale)
    ∧ spriteCenter rotSwap (setScale rotSwap gBase (1 / 100)).1 = spriteCenter rotSwap gBase :=
  ⟨by norm_num [rawCellSize, gBase, pyTrunc],
   (invalid_scale_rejected rotSwap gBase (1 / 100)
      (by norm_num [rawCellSize, gBase, pyTrunc])).1,
   (invalid_scale_rejected rotSwap gBase (1 / 100)
      (by norm_num [rawCellSize, gBase, pyTrunc])).2.2.2.2.2⟩

/-! ### Audio channel manager (`Sound`, tsapp.py lines 146, 1149-1268)

The pygame mixer is modeled by its channel list: each channel is
either free (`none`) or busy playing a clip (`some clip`).  Clips are
abstract identifiers; `Sound._pygame_sound.get_num_channels()` counts
the channels busy with that sound's clip, `pygame.mixer.find_channel()`
succeeds when some channel is free, `pygame.mixer.set_num_channels(n+1)`
appends a fresh free channel, and `Sound._pygame_sound.play(...)`
occupies a free channel with the clip (the looping flag only selects
the backend loop count, `-1` versus `0`, and does not affect channel
occupancy).  `Sound._pygame_sound.stop()` frees every channel playing
the clip.  The per-channel paused state never affects any of these
counts: a paused pygame channel still holds its sound. -/

/-- The audio-channel ceiling (tsapp.py line 146). -/
def MAX_AUDIO_CHANNELS : ℕ := 8

/-- State of the pygame mixer: one entry per allocated channel. -/
structure Mixer where
  channels : List (Option ℕ)
deriving DecidableEq, Repr

/-- `pygame.mixer.get_num_channels()`. -/
def Mixer.numChannels (m : Mixer) : ℕ := m.channels.length

/-- `pygame.mixer.find_channel()` succeeds: some channel is free. -/
def Mixer.hasFree (m : Mixer) : Prop := none ∈ m.channels

instance (m : Mixer) : Decidable m.hasFree := by
  unfold Mixer.hasFree
  infer_instance

/-- `Sound._pygame_sound.get_num_channels()`: the number of channels
currently holding this clip. -/
def Mixer.numPlaying (m : Mixer) (clip : ℕ) : ℕ := m.channels.count (some clip)

/-- `pygame.mixer.set_num_channels(get_num_channels() + 1)`: one fresh
free channel is appended. -/
def Mixer.grow (m : Mixer) : Mixer := ⟨m.channels ++ [none]⟩

/-- Helper for `playClip`: occupy the first free channel with the
clip; with no free channel the list is unchanged (unreachable from
`Sound.play`, which only starts playback when a channel is free). -/
def allocChannel : List (Option ℕ) → ℕ → List (Option ℕ)
  | [], _ => []
  | none :: rest, c => some c :: rest
  | some d :: rest, c => some d :: allocChannel rest c

/-- `Sound._pygame_sound.play(loops=...)`: start one new instance of
the clip on a free channel. -/
def Mixer.playClip (m : Mixer) (clip : ℕ) : Mixer := ⟨allocChannel m.channels clip⟩

/-- `Sound._pygame_sound.stop()`: free every channel holding the
clip. -/
def Mixer.stopClip (m : Mixer) (clip : ℕ) : Mixer :=
  ⟨m.channels.map (fun ch => if ch = some clip then none else ch)⟩

/-- State of a `Sound` object (tsapp.py lines 1149-1155): its backing
clip, the looping, uniqueness and paused flags. -/
structure Sound where
  clip : ℕ
  looping : Bool
  unique : Bool
  paused : Bool
deriving DecidableEq, Repr

/-- The `RuntimeError`s of `Sound.play` (tsapp.py lines 1206-1211). -/
inductive PlayErr where
  | playWhilePaused
  | noActiveWindow
deriving DecidableEq, Repr

/-- Uniqueness gate and playback of `Sound.play` (tsapp.py lines
1220-1230): a unique sound with at least one active instance returns
`False` without playing; otherwise a new instance starts and `True` is
returned. -/
def Sound.playGate (s : Sound) (m : Mixer) : Bool × Mixer :=
  if s.unique = true ∧ 0 < m.numPlaying s.clip then (false, m)
  else (true, m.playClip s.clip)

/-- `Sound.play` (tsapp.py lines 1206-1230).  Raises while paused or
without an active window; otherwise, when no channel is free and the
pool is below the ceiling, the pool grows by one channel *before* the
uniqueness check; when no channel is free and the pool is at the
ceiling, the call fails silently with `False`. -/
def Sound.play (s : Sound) (m : Mixer) (activeWindow : Bool) :
    Except PlayErr (Bool × Mixer) :=
  if s.paused = true then Except.error PlayErr.playWhilePaused
  else if activeWindow = false then Except.error PlayErr.noActiveWindow
  else if ¬ m.hasFree ∧ m.numChannels < MAX_AUDIO_CHANNELS then
    Except.ok (Sound.playGate s m.grow)
  else if ¬ m.hasFree then Except.ok (false, m)
  else Except.ok (Sound.playGate s m)

/-- `Sound.stop` (tsapp.py lines 1232-1234): stop every instance of
the clip and clear the paused flag unconditionally. -/
def Sound.stop (s : Sound) (m : Mixer) : Sound × Mixer :=
  ({ s with paused := false }, m.stopClip s.clip)

theorem Mixer.numPlaying_grow (m : Mixer) (clip : ℕ) :
    m.grow.numPlaying clip = m.numPlaying clip := by
  unfold Mixer.numPlaying Mixer.grow
  simp

theorem Mixer.numChannels_grow (m : Mixer) :
    m.grow.numChannels = m.numChannels + 1 := by
  unfold Mixer.numChannels Mixer.grow
  simp

theorem Mixer.hasFree_grow (m : Mixer) : m.grow.hasFree := by
  unfold Mixer.hasFree Mixer.grow
  simp

theorem allocChannel_count (l : List (Option ℕ)) (c : ℕ) (h : none ∈ l) :
    (allocChannel l c).count (some c) = l.count (some c) + 1 := by
  induction l with
  | nil => cases h
  | cons ch rest ih =>
    cases ch with
    | none =>
      unfold allocChannel
      simp [List.count_cons]
    | some d =>
      unfold allocChannel
      have h' : none ∈ rest := by
        rcases List.mem_cons.mp h with h0 | h0
        · cases h0
        · exact h0
      simp [List.count_cons, ih h']
      omega

theorem Mixer.numPlaying_playClip (m : Mixer) (clip : ℕ) (h : m.hasFree) :
    (m.playClip clip).numPlaying clip = m.numPlaying clip + 1 := by
  unfold Mixer.numPlaying Mixer.playClip
  exact allocChannel_count m.channels clip h

/-- Claim C6.  With an active window and the sound not paused: a
unique sound that already has at least one active instance is refused
by `play()` - no exception, the failure value `False` is returned, and
the number of instances of its clip is unchanged; a non-unique sound
is granted a new concurrent instance whenever a channel is free or the
pool can still grow toward the ceiling. -/
theorem unique_sound_play_refusal (s : Sound) (m : Mixer) (hp : s.paused = false) :
    (s.unique = true → 0 < m.numPlaying s.clip →
      ∃ m', Sound.play s m true = Except.ok (false, m')
        ∧ m'.numPlaying s.clip = m.numPlaying s.clip)
    ∧ (s.unique = false → (m.hasFree ∨ m.numChannels < MAX_AUDIO_CHANNELS) →
      ∃ m', Sound.play s m true = Except.ok (true, m')
        ∧ m'.numPlaying s.clip = m.numPlaying s.clip + 1) := by
  have hplay : Sound.play s m true =
      (if ¬ m.hasFree ∧ m.numChannels < MAX_AUDIO_CHANNELS then
        Except.ok (Sound.playGate s m.grow)
      else if ¬ m.hasFree then Except.ok (false, m)
      else Except.ok (Sound.playGate s m)) := by
    rw [Sound.play, if_neg (by rw [hp]; exact fun h => Bool.noConfusion h),
      if_neg (fun h => Bool.noConfusion h)]
  constructor
  · intro hu hn
    rcases Decidable.em (¬ m.hasFree ∧ m.numChannels < MAX_AUDIO_CHANNELS) with hc | hc
    · refine ⟨m.grow, ?_, Mixer.numPlaying_grow m s.clip⟩
      rw [hplay, if_pos hc, Sound.playGate,
        if_pos ⟨hu, by rw [Mixer.numPlaying_grow]; exact hn⟩]
    · rcases Decidable.em m.hasFree with hf | hf
      · refine ⟨m, ?_, rfl⟩
        rw [hplay, if_neg hc, if_neg (fun h => h hf), Sound.playGate, if_pos ⟨hu, hn⟩]
      · refine ⟨m, ?_, rfl⟩
        rw [hplay, if_neg hc, if_pos hf]
  · intro hu hcap
    have hnu : ¬ (s.unique = true ∧ 0 < m.grow.numPlaying s.clip) := by
      rw [hu]
      exact fun h => Bool.noConfusion h.1
    have hnu' : ¬ (s.unique = true ∧ 0 < m.numPlaying s.clip) := by
      rw [hu]
      exact fun h => Bool.noConfusion h.1
    rcases Decidable.em m.hasFree with hf | hf
    · refine ⟨m.playClip s.clip, ?_, Mixer.numPlaying_playClip m s.clip hf⟩
      rw [hplay, if_neg (fun h => h.1 hf), if_neg (fun h => h hf),
        Sound.playGate, if_neg hnu']
    · have hlt : m.numChannels < MAX_AUDIO_CHANNELS := by
        rcases hcap with h | h
        · exact absurd h hf
        · exact h
      refine ⟨m.grow.playClip s.clip, ?_, ?_⟩
      · rw [hplay, if_pos ⟨hf, hlt⟩, Sound.playGate, if_neg hnu]
      · rw [Mixer.numPlaying_playClip m.grow s.clip (Mixer.hasFree_grow m),
          Mixer.numPlaying_grow]

/-- Unique sound on clip 5, not paused. -/
def soundUnique : Sound := { clip := 5, looping := false, unique := true, paused := false }

/-- Non-unique sound on clip 5, not paused. -/
def soundShared : Sound := { clip := 5, looping := false, unique := false, paused := false }

/-- One-channel mixer whose only channel is busy playing clip 5. -/
def mixerBusy : Mixer := ⟨[some 5]⟩

/-- One-channel mixer with a free channel. -/
def mixerFree : Mixer := ⟨[none]⟩

/-- Witness for `unique_sound_play_refusal`: on a busy one-channel
mixer the unique sound is refused with its single instance intact,
while the non-unique sound on a free channel gains a second
instance. -/
theorem unique_sound_play_refusal_witness :
    (soundUnique.unique = true ∧ 0 < mixerBusy.numPlaying soundUnique.clip
      ∧ ∃ m', Sound.play soundUnique mixerBusy true = Except.ok (false, m')
          ∧ m'.numPlaying soundUnique.clip = mixerBusy.numPlaying soundUnique.clip)
    ∧ (soundShared.unique = false ∧ mixerFree.hasFree
      ∧ ∃ m', Sound.play soundShared mixerFree true = Except.ok (true, m')
          ∧ m'.numPlaying soundShared.clip = mixerFree.numPlaying soundShared.clip + 1) :=
  ⟨⟨rfl, by decide,
    (unique_sound_play_refusal soundUnique mixerBusy rfl).1 rfl (by decide)⟩,
   ⟨rfl, by decide,
    (unique_sound_play_refusal soundShared mixerFree rfl).2 rfl (Or.inl (by decide))⟩⟩

/-- Claim C9.  When a unique sound with an active instance is played
while the channel pool has no free channel but is still below the
ceiling, the pool is grown by one channel *before* the uniqueness
check (tsapp.py lines 1213-1214 precede lines 1220-1221): the call is
refused with `False`, yet the mixer ends up with one more channel -
the refusal is not a pure no-op on mixer state. -/
theorem refused_play_grows_pool (s : Sound) (m : Mixer) (hp : s.paused = false)
    (hu : s.unique = true) (hn : 0 < m.numPlaying s.clip)
    (hf : ¬ m.hasFree) (hm : m.numChannels < MAX_AUDIO_CHANNELS) :
    Sound.play s m true = Except.ok (false, m.grow)
    ∧ m.grow.numChannels = m.numChannels + 1
    ∧ m.grow.numPlaying s.clip = m.numPlaying s.clip := by
  refine ⟨?_, Mixer.numChannels_grow m, Mixer.numPlaying_grow m s.clip⟩
  rw [Sound.play, if_neg (by rw [hp]; exact fun h => Bool.noConfusion h),
    if_neg (fun h => Bool.noConfusion h), if_pos ⟨hf, hm⟩, Sound.playGate,
    if_pos ⟨hu, by rw [Mixer.numPlaying_grow]; exact hn⟩]

/-- Witness for `refused_play_grows_pool`: the busy one-channel mixer
refuses the unique sound but grows to two channels. -/
theorem refused_play_grows_pool_witness :
    (¬ mixerBusy.hasFree ∧ mixerBusy.numChannels < MAX_AUDIO_CHANNELS
      ∧ 0 < mixerBusy.numPlaying soundUnique.clip)
    ∧ Sound.play soundUnique mixerBusy true = Except.ok (false, mixerBusy.grow)
    ∧ mixerBusy.grow.numChannels = mixerBusy.numChannels + 1 :=
  ⟨⟨by decide, by decide, by decide⟩,
   (refused_play_grows_pool soundUnique mixerBusy rfl rfl (by decide) (by decide)
      (by decide)).1,
   (refused_play_grows_pool soundUnique mixerBusy rfl rfl (by decide) (by decide)
      (by decide)).2.1⟩

/-- Claim C10.  `Sound.stop` clears the paused flag unconditionally
(tsapp.py lines 1232-1234), so with an active window a subsequent
`play()` never raises the play-while-paused error (nor any other
error), no matter the paused state before the stop and no matter the
mixer state at play time. -/
theorem stop_clears_paused (s : Sound) (m m2 : Mixer) :
    (Sound.stop s m).1.paused = false
    ∧ ∃ r, Sound.play (Sound.stop s m).1 m2 true = Except.ok r := by
  refine ⟨rfl, ?_⟩
  rw [Sound.play, if_neg (fun h => Bool.noConfusion h), if_neg (fun h => Bool.noConfusion h)]
  rcases Decidable.em (¬ m2.hasFree ∧ m2.numChannels < MAX_AUDIO_CHANNELS) with hc | hc
  · rw [if_pos hc]
    exact ⟨_, rfl⟩
  · rw [if_neg hc]
    rcases Decidable.em (¬ m2.hasFree) with hf | hf
    · rw [if_pos hf]
      exact ⟨_, rfl⟩
    · rw [if_neg hf]
      exact ⟨_, rfl⟩
